import Mathlib

/-!
# Olive: keyframe resolution, Bezier helpers and the OpenGL render worker

A shallow embedding of

* `EffectField::get_keyframe_data` and `Effect::save` (`src/effects/effect.cpp`),
* `Bezier::QuadraticXtoT`, `QuadraticTtoY`, `CubicXtoT`, `CubicTtoY`
  (`src/app/common/bezier.cpp`),
* the destination size of `OpenGLWorker::FrameToValue` and the operation
  sequence of `OpenGLWorker::RunNodeAccelerated`
  (`src/app/render/backend/opengl/openglworker.cpp`),

followed by the properties proved about them.

Conventions. Frame numbers (`long`) are unbounded integers; `double` values are
exact numbers (rationals where the code only adds, multiplies and divides, an
ordered field where a theorem quantifies over reals). A C++ path with undefined
behaviour (falling off the end of a non-void function, dividing by zero) or a
floating-point result without a finite value is `none`.
-/

set_option autoImplicit false

namespace Olive

/-! ## Qt value types used by the effect code -/

/-- A `QColor` seen through `red()`, `green()`, `blue()` and `alpha()`. -/
structure QColor where
  red : Int
  green : Int
  blue : Int
  alpha : Int
  deriving DecidableEq, Repr

/-- The Qt constructor `QColor(int r, int g, int b, int a = 255)` called with three
arguments, as `get_keyframe_data` calls it: the alpha channel takes the default. -/
def QColor.rgb (r g b : Int) : QColor := ⟨r, g, b, 255⟩

/-- The payloads a keyframe's `QVariant data` carries in this program. -/
inductive QVariant where
  | invalid
  | double (d : ℚ)
  | color (c : QColor)
  | string (s : String)
  | bool (b : Bool)
  | int (n : Int)
  deriving DecidableEq, Repr

/-- The conversion `QVariant::toDouble()`. Numeric payloads convert; every other payload gives
`0.0` (Qt also parses text, which no property below relies on). -/
def QVariant.toDouble : QVariant → ℚ
  | .double d => d
  | .int n => n
  | .bool b => if b then 1 else 0
  | _ => 0

/-- The conversion `QVariant::value<QColor>()`: the stored colour, or a default-constructed
`QColor` (channels 0, alpha 255) when the payload is not a colour. -/
def QVariant.toColor : QVariant → QColor
  | .color c => c
  | _ => ⟨0, 0, 0, 255⟩

/-- Conversion of a `double` to `int` when it is passed to an `int` parameter:
truncation toward zero. -/
def truncToInt (x : ℚ) : Int :=
  if 0 ≤ x then ⌊x⌋ else ⌈x⌉

/-! ## Effect fields -/

/-- The values `EffectField::type` is switched on; `other` is an `int` that is none
of the six constants. -/
inductive EffectFieldType where
  | EFFECT_FIELD_DOUBLE
  | EFFECT_FIELD_COLOR
  | EFFECT_FIELD_STRING
  | EFFECT_FIELD_BOOL
  | EFFECT_FIELD_COMBO
  | EFFECT_FIELD_FONT
  | other (t : Int)
  deriving DecidableEq, Repr

open EffectFieldType

/-- The record `EffectKeyframe`: `frame`, `type` and `data`. -/
structure EffectKeyframe where
  frame : Int
  type : Int
  data : QVariant
  deriving DecidableEq, Repr

/-- The part of `EffectField` that `get_keyframe_data` reads. -/
structure EffectField where
  type : EffectFieldType
  keyframes : List EffectKeyframe
  deriving DecidableEq, Repr

/-- The sentinel the constructor appends: `key.frame = -1`, everything else
default-constructed. -/
def defaultKeyframe : EffectKeyframe := ⟨-1, 0, QVariant.invalid⟩

/-- The keyframe list right after `EffectField::EffectField(int t)`. -/
def EffectField.new (t : EffectFieldType) : EffectField := ⟨t, [defaultKeyframe]⟩

/-- The method `EffectField::is_keyframed(long p)`. -/
def EffectField.is_keyframed (f : EffectField) (p : Int) : Bool :=
  f.keyframes.length == 0 || decide (p < 0)

/-- Modelled from the spec: `lerp`, the interpolation helper `get_keyframe_data`
calls, is defined outside the given sources; the spec describes it as linear
interpolation of the raw scalar between the `before` and `after` values. -/
def lerp (a b t : ℚ) : ℚ := a + (b - a) * t

/-- The test `before != NULL && keyframes.at(i).frame <= before->frame`. -/
def notLaterThan (k : EffectKeyframe) : Option EffectKeyframe → Bool
  | none => false
  | some b => decide (k.frame ≤ b.frame)

/-- The test `after != NULL && keyframes.at(i).frame >= after->frame`. -/
def notEarlierThan (k : EffectKeyframe) : Option EffectKeyframe → Bool
  | none => false
  | some a => decide (k.frame ≥ a.frame)

/-- What the search loop of `get_keyframe_data` leaves behind: either it returned
from inside the loop, or it ran to the end with the two pointers. -/
inductive ScanResult where
  | returned (data : QVariant)
  | bounds (before after : Option EffectKeyframe)
  deriving DecidableEq, Repr

/-- The loop `for (int i=1;i<keyframes.size();i++)` over the keyframes from index 1
on, with the pointers `before` and `after` as accumulators. -/
def scanKeyframes (p : Int) :
    List EffectKeyframe → Option EffectKeyframe → Option EffectKeyframe → ScanResult
  | [], before, after => .bounds before after
  | k :: rest, before, after =>
    if k.frame = p then .returned k.data
    else if k.frame < p ∧ ¬ (notLaterThan k before = true) then
      scanKeyframes p rest (some k) after
    else if k.frame > p ∧ ¬ (notEarlierThan k after = true) then
      scanKeyframes p rest before (some k)
    else scanKeyframes p rest before after

/-- The block `if (before != NULL && after != NULL) ...` with both pointers set.
`progress` is the quotient of two `long`s, truncated before it becomes a `double`;
a zero divisor is undefined. A `type` outside the six cases leaves the `switch` and
reaches `if (before != NULL) return before->data`. -/
def interpolate (type : EffectFieldType) (p : Int) (before after : EffectKeyframe) :
    Option QVariant :=
  if after.frame - before.frame = 0 then none
  else
    let progress : ℚ := ((Int.tdiv (p - before.frame) (after.frame - before.frame) : Int) : ℚ)
    match type with
    | EFFECT_FIELD_DOUBLE =>
      some (.double (lerp before.data.toDouble after.data.toDouble progress))
    | EFFECT_FIELD_COLOR =>
      let before_color := before.data.toColor
      let after_color := after.data.toColor
      some (.color (QColor.rgb
        (truncToInt (lerp before_color.red after_color.red progress))
        (truncToInt (lerp before_color.green after_color.green progress))
        (truncToInt (lerp before_color.blue after_color.blue progress))))
    | EFFECT_FIELD_STRING => some before.data
    | EFFECT_FIELD_BOOL => some before.data
    | EFFECT_FIELD_COMBO => some before.data
    | EFFECT_FIELD_FONT => some before.data
    | other _ => some before.data

/-- The method `EffectField::get_keyframe_data(long p)`. `none` is the end of the function
reached without a `return` (or a division by zero). -/
def EffectField.get_keyframe_data (f : EffectField) (p : Int) : Option QVariant :=
  if f.keyframes.length = 1 then
    (f.keyframes.get? 0).map EffectKeyframe.data
  else
    match scanKeyframes p (f.keyframes.drop 1) none none with
    | .returned data => some data
    | .bounds (some before) (some after) => interpolate f.type p before after
    | .bounds (some before) none => some before.data
    | .bounds none (some after) => some after.data
    | .bounds none none => none

/-- The pointer `o` is the keyframe of `l` with the greatest frame below `p`, or is
NULL when `l` has no keyframe below `p`. -/
def BestBelow (p : Int) (l : List EffectKeyframe) : Option EffectKeyframe → Prop
  | none => ∀ k ∈ l, ¬ k.frame < p
  | some b => b ∈ l ∧ b.frame < p ∧ ∀ k ∈ l, k.frame < p → k.frame ≤ b.frame

/-- The pointer `o` is the keyframe of `l` with the smallest frame above `p`, or is
NULL when `l` has no keyframe above `p`. -/
def BestAbove (p : Int) (l : List EffectKeyframe) : Option EffectKeyframe → Prop
  | none => ∀ k ∈ l, ¬ p < k.frame
  | some a => a ∈ l ∧ p < a.frame ∧ ∀ k ∈ l, p < k.frame → a.frame ≤ k.frame

/-- The interpolation formula of the specification, with an exact quotient: the value
at time `t` on the straight line from `(tb, vb)` to `(ta, va)`. -/
def linearInterpolation (tb : Int) (vb : ℚ) (ta : Int) (va : ℚ) (t : Int) : ℚ :=
  vb + (va - vb) * ((t - tb : ℚ) / (ta - tb : ℚ))

/-- A double field: the sentinel, then `(0, 0.0)` and `(10, 10.0)`. -/
def rampField : EffectField :=
  ⟨EFFECT_FIELD_DOUBLE, [defaultKeyframe, ⟨0, 0, .double 0⟩, ⟨10, 0, .double 10⟩]⟩

/-- A colour field: the sentinel, then `(0, rgba 255,0,0,10)` and
`(10, rgba 0,0,255,200)`. -/
def colorRampField : EffectField :=
  ⟨EFFECT_FIELD_COLOR,
    [defaultKeyframe, ⟨0, 0, .color ⟨255, 0, 0, 10⟩⟩, ⟨10, 0, .color ⟨0, 0, 255, 200⟩⟩]⟩

/-- A double field whose sentinel holds `1.0`, followed by one keyframe `(5, 2.0)`. -/
def sentinelThenKeyField : EffectField :=
  ⟨EFFECT_FIELD_DOUBLE, [⟨-1, 0, .double 1⟩, ⟨5, 0, .double 2⟩]⟩

/-- Two text keyframes `(0, "a")` and `(10, "b")`, in this order. -/
def textKeys : List EffectKeyframe := [⟨0, 0, .string "a"⟩, ⟨10, 0, .string "b"⟩]

/-! ## Saving an effect (`Effect::save`) -/

/-- What `Effect::save` writes as an attribute value: a number, or the kind-specific
text of a keyframe's `data` (the conversion is named, the `QVariant` is kept). -/
inductive AttributeValue where
  | number (n : Int)
  | doubleNumber (data : QVariant)
  | colorName (data : QVariant)
  | text (data : QVariant)
  | boolNumber (data : QVariant)
  deriving DecidableEq, Repr

/-- The calls `Effect::save` makes on the `QXmlStreamWriter`. -/
inductive XmlToken where
  | writeStartElement (name : String)
  | writeAttribute (name : String) (value : AttributeValue)
  | writeEndElement
  deriving DecidableEq, Repr

/-- The `switch (field->type)` that writes the `value` attribute of a `<key>`; a
`type` outside the six cases writes none. -/
def saveValue (type : EffectFieldType) (key : EffectKeyframe) : List XmlToken :=
  match type with
  | EFFECT_FIELD_DOUBLE => [.writeAttribute "value" (.doubleNumber key.data)]
  | EFFECT_FIELD_COLOR => [.writeAttribute "value" (.colorName key.data)]
  | EFFECT_FIELD_STRING => [.writeAttribute "value" (.text key.data)]
  | EFFECT_FIELD_BOOL => [.writeAttribute "value" (.boolNumber key.data)]
  | EFFECT_FIELD_COMBO => [.writeAttribute "value" (.text key.data)]
  | EFFECT_FIELD_FONT => [.writeAttribute "value" (.text key.data)]
  | other _ => []

/-- The `<key>` element written for the keyframe `key` of a field of kind `type`. -/
def saveKey (type : EffectFieldType) (key : EffectKeyframe) : List XmlToken :=
  [.writeStartElement "key", .writeAttribute "frame" (.number key.frame),
    .writeAttribute "type" (.number key.type)] ++ saveValue type key ++ [.writeEndElement]

/-- The loop `for (int k=0;k<field->keyframes.size();k++)` inside row `i`, from `k`
on with `remaining` passes left. Each pass reads `field->keyframes.at(i)`;
`none` is a read outside the list. -/
def saveKeys (field : EffectField) (i : Nat) : Nat → Nat → Option (List XmlToken)
  | 0, _ => some []
  | remaining + 1, k =>
    match field.keyframes.get? i with
    | none => none
    | some key =>
      match saveKeys field i remaining (k + 1) with
      | none => none
      | some later => some (saveKey field.type key ++ later)

/-- The `<field>` element written for `field` while saving row `i`. -/
def saveField (i : Nat) (field : EffectField) : Option (List XmlToken) :=
  match saveKeys field i field.keyframes.length 0 with
  | none => none
  | some keys => some ([.writeStartElement "field"] ++ keys ++ [.writeEndElement])

/-- The loop `for (int j=0;j<row->fieldCount();j++)` of row `i`. -/
def saveFields (i : Nat) : List EffectField → Option (List XmlToken)
  | [] => some []
  | field :: rest =>
    match saveField i field with
    | none => none
    | some first =>
      match saveFields i rest with
      | none => none
      | some later => some (first ++ later)

/-- An `EffectRow`: its fields. -/
structure EffectRow where
  fields : List EffectField
  deriving DecidableEq, Repr

/-- The loop `for (int i=0;i<rows.size();i++)` of `Effect::save`, from row `i` on. -/
def saveRows : List EffectRow → Nat → Option (List XmlToken)
  | [], _ => some []
  | row :: rest, i =>
    match saveFields i row.fields with
    | none => none
    | some fields =>
      match saveRows rest (i + 1) with
      | none => none
      | some later =>
        some ([.writeStartElement "row"] ++ fields ++ [.writeEndElement] ++ later)

/-- An `Effect` as `save` sees it: its rows. -/
structure Effect where
  rows : List EffectRow
  deriving DecidableEq, Repr

/-- The method `Effect::save(QXmlStreamWriter*)`: the calls made on the stream, or
`none` when a keyframe is read outside its list. -/
def Effect.save (e : Effect) : Option (List XmlToken) :=
  saveRows e.rows 0

/-- The `<field>` element the persisted format describes: one `<key>` per keyframe of
the field, in list order, each carrying its own frame, type and value. -/
def fieldElement (field : EffectField) : List XmlToken :=
  [.writeStartElement "field"] ++ field.keyframes.flatMap (saveKey field.type) ++
    [.writeEndElement]

/-- An effect with one row holding the double field `[(-1, 1.0), (5, 2.0)]`. -/
def oneRowEffect : Effect := ⟨[⟨[sentinelThenKeyField]⟩]⟩

/-- An effect with two rows; the second holds a field with only its sentinel. -/
def twoRowEffect : Effect :=
  ⟨[⟨[sentinelThenKeyField]⟩, ⟨[EffectField.new EFFECT_FIELD_DOUBLE]⟩]⟩

/-! ## Bezier helpers (`bezier.cpp`)

`double` is an ordered field `α`: the reals in the theorems, the rationals when a
value is computed. -/

namespace Bezier

variable {α : Type} [LinearOrderedField α]

/-- The function `Bezier::QuadraticTtoY(a, b, c, t)`. -/
def QuadraticTtoY (a b c t : α) : α :=
  (1 - t) ^ 2 * a + 2 * (1 - t) * t * b + t ^ 2 * c

/-- The argument of `qSqrt` in `QuadraticXtoT`. -/
def quadraticDiscriminant (x a b c : α) : α :=
  a * x + c * x - 2 * b * x + b ^ 2 - a * c

/-- The function `Bezier::QuadraticXtoT(x, a, b, c)`, with `qSqrt` passed in. The result is `none`
when the floating-point expression has no finite value: the square root of a
negative discriminant, or a division by `a - 2*b + c = 0`. -/
def QuadraticXtoT (qSqrt : α → α) (x a b c : α) : Option α :=
  if quadraticDiscriminant x a b c < 0 then none
  else if a - 2 * b + c = 0 then none
  else some ((a - b + qSqrt (quadraticDiscriminant x a b c)) / (a - 2 * b + c))

/-- A cubic with control values `a b c d` changes by at most this much per unit of
`t` on `[0,1]`. -/
noncomputable def cubicSlopeBound (a b c d : ℝ) : ℝ :=
  |3 * (b - a)| + 2 * |3 * (a - 2 * b + c)| + 3 * |d - 3 * c + 3 * b - a|

end Bezier

/-! ## The OpenGL render worker (`openglworker.cpp`) -/

/-- An `OpenGLTexture` behind a cache reference: its GL name `texture()` and its
size. -/
structure OpenGLTexture where
  texture : Nat
  width : Int
  height : Int
  deriving DecidableEq, Repr, Inhabited

/-- The values of `NodeInput::data_type()` the `switch` of `RunNodeAccelerated`
lists. -/
inductive DataType where
  | kInt | kFloat | kVec2 | kVec3 | kVec4 | kMatrix | kColor | kBoolean
  | kFootage | kTexture | kBuffer
  | kSamples | kText | kRational | kFont | kFile | kDecimal | kWholeNumber | kNumber
  | kString | kVector | kNone | kAny
  deriving DecidableEq, Repr

/-- The `QVariant` that `InputValueFromTable` yields for an input: a texture
reference (`null` when `value<ReferencePtr>()` is empty) or some other value. -/
inductive NodeValue where
  | plain (v : Int)
  | texture (t : OpenGLTexture)
  | null
  deriving DecidableEq, Repr

/-- The conversion `value.value<OpenGLTextureCache::ReferencePtr>()`. -/
def NodeValue.toTexture : NodeValue → Option OpenGLTexture
  | .texture t => some t
  | _ => none

/-- What a uniform is set to. -/
inductive UniformValue where
  | converted (kind : DataType) (v : NodeValue)
  | unit (n : Nat)
  | flag (b : Bool)
  | int (i : Int)
  | float (x : ℚ)
  | float2 (x y : Int)
  deriving DecidableEq, Repr

/-- The calls `RunNodeAccelerated` makes on the shader, the GL functions and the
framebuffer. -/
inductive GLOp where
  | Lock
  | Unlock
  | ShaderBind
  | ShaderRelease
  | SetUniform (location : Int) (v : UniformValue)
  | SetUniformByName (name : String) (v : UniformValue)
  | ActiveTexture (unit : Nat)
  | BindTexture (id : Nat)
  | PrepareToDraw
  | Viewport (w h : Int)
  | Attach (id : Nat)
  | BufferBind
  | Blit
  | BufferRelease
  | Detach
  deriving DecidableEq, Repr

/-- A `NodeParam` as the binding loop sees it: its `id()`, whether `type()` is
`kInput`, its `data_type()` and the value the input table holds for it. -/
structure NodeParam where
  id : String
  isInput : Bool
  data_type : DataType
  value : NodeValue

/-- The progress values a transition block reports at `range.in()`. -/
structure TransitionProgress where
  total : ℚ
  out : ℚ
  into : ℚ

/-- What `RunNodeAccelerated` reads from the node. The iterative input is a pointer
in the source; here it is the position of that input in `parameters`, `none` for
a null pointer. `transition` is set when the node is a block of type
`kTransition`. -/
structure Node where
  parameters : List NodeParam
  AcceleratedCodeIterations : Int
  AcceleratedCodeIterativeInput : Option Nat
  transition : Option TransitionProgress

/-- The compiled shader: `uniformLocation(name)`, `-1` for a name it lacks. -/
structure OpenGLShader where
  uniformLocation : String → Int

/-- The sizes `video_params()` reports. -/
structure VideoRenderingParams where
  width : Int
  height : Int
  effective_width : Int
  effective_height : Int

/-- The worker's surroundings during one call: what `shader_cache_->Get(node->id())`
returns, `video_params()`, and the textures the first and the second call of
`texture_cache_->Get(ctx_, video_params())` hand out. -/
structure Worker where
  shader : Option OpenGLShader
  video_params : VideoRenderingParams
  dst0 : OpenGLTexture
  dst1 : OpenGLTexture

/-- The variables the binding loop updates, with the calls issued so far. -/
structure BindState where
  ops : List GLOp
  input_texture_count : Nat
  iterative_input : Nat

/-- The calls made for one texture-bearing input (`kFootage`, `kTexture`,
`kBuffer`) bound to unit `input_texture_count`. -/
def bindTextureOps (shader : OpenGLShader) (param : NodeParam) (variable_location : Int)
    (input_texture_count : Nat) : List GLOp :=
  let texture := param.value.toTexture
  let tex_id : Nat := match texture with
    | some t => t.texture
    | none => 0
  let enable_param_location := shader.uniformLocation (param.id ++ "_enabled")
  let res_param_location := shader.uniformLocation (param.id ++ "_resolution")
  [GLOp.ActiveTexture input_texture_count, GLOp.BindTexture tex_id,
    GLOp.SetUniform variable_location (.unit input_texture_count)] ++
  (if enable_param_location > -1 then
    [GLOp.SetUniform enable_param_location (.flag (decide (tex_id > 0)))] else []) ++
  (match texture with
    | some t =>
      if t.texture > 0 ∧ res_param_location > -1 then
        [GLOp.SetUniform res_param_location (.float2 t.width t.height)] else []
    | none => []) ++
  [GLOp.PrepareToDraw]

/-- One pass of `foreach (NodeParam* param, node->parameters())` for the parameter
at position `idx`. -/
def bindParam (shader : OpenGLShader) (node : Node) (st : BindState) (idx : Nat)
    (param : NodeParam) : BindState :=
  if param.isInput then
    let variable_location := shader.uniformLocation param.id
    if variable_location > -1 then
      match param.data_type with
      | .kInt | .kFloat | .kVec2 | .kVec3 | .kVec4 | .kMatrix | .kColor | .kBoolean =>
        { st with ops := st.ops ++
            [GLOp.SetUniform variable_location (.converted param.data_type param.value)] }
      | .kFootage | .kTexture | .kBuffer =>
        { ops := st.ops ++ bindTextureOps shader param variable_location st.input_texture_count
          input_texture_count := st.input_texture_count + 1
          iterative_input :=
            if node.AcceleratedCodeIterativeInput = some idx then st.input_texture_count
            else st.iterative_input }
      | _ => st
    else st
  else st

/-- The whole binding loop over the parameters from position `idx` on. -/
def bindParams (shader : OpenGLShader) (node : Node) :
    List NodeParam → Nat → BindState → BindState
  | [], _, st => st
  | param :: rest, idx, st =>
    bindParams shader node rest (idx + 1) (bindParam shader node st idx param)

/-- The reference `dst_refs.at(i % dst_refs.size())`. -/
def dstAt (dst_refs : List OpenGLTexture) (i : Nat) : OpenGLTexture :=
  dst_refs.getD (i % dst_refs.length) default

/-- The body of the iteration loop for one value of `iteration`. -/
def iterationOps (dst_refs : List OpenGLTexture) (iterative_input : Nat) (iteration : Nat) :
    List GLOp :=
  let source_tex := dstAt dst_refs (iteration + 1)
  let destination_tex := dstAt dst_refs iteration
  [GLOp.ShaderBind, GLOp.SetUniformByName "ove_iteration" (.int iteration),
    GLOp.ShaderRelease] ++
  (if iteration > 0 then
    [GLOp.ActiveTexture iterative_input, GLOp.BindTexture source_tex.texture] else []) ++
  [GLOp.Attach destination_tex.texture, GLOp.BufferBind, GLOp.Blit, GLOp.BufferRelease,
    GLOp.Detach]

/-- The loop `for (int iteration=0; iteration<AcceleratedCodeIterations(); iteration++)`
with `remaining` passes left, carrying `output_tex`. -/
def runIterations (dst_refs : List OpenGLTexture) (iterative_input : Nat) :
    Nat → Nat → Option OpenGLTexture → List GLOp × Option OpenGLTexture
  | 0, _, output_tex => ([], output_tex)
  | remaining + 1, iteration, _ =>
    let later := runIterations dst_refs iterative_input remaining (iteration + 1)
      (some (dstAt dst_refs iteration))
    (iterationOps dst_refs iterative_input iteration ++ later.1, later.2)

/-- The loop `while (input_texture_count > 0)` that releases the bound units. -/
def releaseTextures : Nat → List GLOp
  | 0 => []
  | n + 1 => [GLOp.ActiveTexture n, GLOp.BindTexture 0] ++ releaseTextures n

/-- The list `dst_refs`: one destination, two when the node iterates. -/
def dstRefs (w : Worker) (node : Node) : List OpenGLTexture :=
  [w.dst0] ++
    (if node.AcceleratedCodeIterations > 1 ∧ node.AcceleratedCodeIterativeInput.isSome then
      [w.dst1] else [])

/-- The calls between the binding loop and the iteration loop: viewport, the
standard resolution uniform and, for a transition, the three progress uniforms. -/
def standardOps (w : Worker) (node : Node) : List GLOp :=
  [GLOp.Viewport w.video_params.effective_width w.video_params.effective_height,
    GLOp.SetUniformByName "ove_resolution"
      (.float2 w.video_params.width w.video_params.height)] ++
  (match node.transition with
    | some t =>
      [GLOp.SetUniformByName "ove_tprog_all" (.float t.total),
        GLOp.SetUniformByName "ove_tprog_out" (.float t.out),
        GLOp.SetUniformByName "ove_tprog_in" (.float t.into)]
    | none => [])

/-- What one call of `RunNodeAccelerated` does: the calls it issues, in order, and
the textures it pushes onto `output_params`. -/
structure RunResult where
  ops : List GLOp
  pushed : List (Option OpenGLTexture)

/-- The method `OpenGLWorker::RunNodeAccelerated`: a node without a shader issues
nothing; otherwise lock and bind, the binding loop, the standard uniforms, the
iteration loop, unlock, the release loop, and one push. -/
def RunNodeAccelerated (w : Worker) (node : Node) : RunResult :=
  match w.shader with
  | none => { ops := [], pushed := [] }
  | some shader =>
    let dst_refs := dstRefs w node
    let bound := bindParams shader node node.parameters 0
      { ops := [], input_texture_count := 0, iterative_input := 0 }
    let iterations := runIterations dst_refs bound.iterative_input
      node.AcceleratedCodeIterations.toNat 0 none
    { ops := [GLOp.Lock, GLOp.ShaderBind] ++ bound.ops ++ standardOps w node ++
        iterations.1 ++ [GLOp.Unlock] ++ releaseTextures bound.input_texture_count ++
        [GLOp.ShaderRelease]
      pushed := [iterations.2] }

/-- A worker with a shader that knows no uniform, and two destination textures. -/
def exampleWorker : Worker :=
  ⟨some ⟨fun _ => -1⟩, ⟨1920, 1080, 1920, 1080⟩, ⟨7, 1920, 1080⟩, ⟨8, 1920, 1080⟩⟩

/-- A node with one texture input, which is its iterative input, and three
iterations. -/
def exampleNode : Node :=
  ⟨[⟨"tex_in", true, .kTexture, .null⟩], 3, some 0, none⟩

/-! ## Reading an operation sequence: texture bindings and the shader lock -/

/-- The GL texture-binding state: the active unit and, for every unit, the texture
bound to it (0 for none). -/
structure GLBindings where
  active : Nat
  bound : Nat → Nat

/-- The effect of one call on the binding state: `glActiveTexture` selects a unit,
`glBindTexture` binds on the selected unit, every other call leaves it alone. -/
def GLBindings.step (s : GLBindings) : GLOp → GLBindings
  | .ActiveTexture unit => { s with active := unit }
  | .BindTexture id =>
    { s with bound := fun unit => if unit = s.active then id else s.bound unit }
  | _ => s

/-- The binding state after a sequence of calls. -/
def runBindings : List GLOp → GLBindings → GLBindings
  | [], s => s
  | op :: rest, s => runBindings rest (s.step op)

/-- The units on which a sequence of calls issues `glBindTexture`, in order, when it
starts with `active` selected. -/
def unitsBound : List GLOp → Nat → List Nat
  | [], _ => []
  | .ActiveTexture unit :: rest, _ => unitsBound rest unit
  | .BindTexture _ :: rest, active => active :: unitsBound rest active
  | _ :: rest, active => unitsBound rest active

/-- Whether a call sets a uniform of the shader or draws through it. -/
def usesShader : GLOp → Bool
  | .SetUniform _ _ => true
  | .SetUniformByName _ _ => true
  | .Blit => true
  | _ => false

/-- Whether every call that uses the shader is made while its lock is held, reading
the sequence from a state where the lock is held or not. -/
def lockHeldAtUses : List GLOp → Bool → Bool
  | [], _ => true
  | .Lock :: rest, _ => lockHeldAtUses rest true
  | .Unlock :: rest, _ => lockHeldAtUses rest false
  | op :: rest, held => (!usesShader op || held) && lockHeldAtUses rest held

/-- A node that iterates twice, has no input and no iterative input. -/
def generatorNode : Node := ⟨[], 2, none, none⟩

/-- Whether a call is `Lock()` or `Unlock()` on the shader. -/
def isLockCall : GLOp → Bool
  | .Lock => true
  | .Unlock => true
  | _ => false

/-- A sequence that neither locks nor unlocks. -/
def lockFree (ops : List GLOp) : Bool :=
  ops.all fun op => !isLockCall op

/-- A sequence that neither sets a uniform nor draws. -/
def shaderIdle (ops : List GLOp) : Bool :=
  ops.all fun op => !usesShader op

/-- The invariant of the binding loop: every unit bound so far is below
`input_texture_count`, and `iterative_input` is one of them or still 0. -/
def BindInvariant (st : BindState) : Prop :=
  (∀ a u, u ∈ unitsBound st.ops a → u < st.input_texture_count) ∧
  (st.input_texture_count = 0 → st.iterative_input = 0) ∧
  (0 < st.input_texture_count → st.iterative_input < st.input_texture_count)

/-! ## Keyframe resolution: lemmas -/

theorem bestBelow_acc (p : Int) (before : Option EffectKeyframe)
    (hb : ∀ b, before = some b → b.frame < p) : BestBelow p before.toList before := by
  cases before with
  | none => intro k hk; simp at hk
  | some b =>
    refine ⟨by simp, hb b rfl, ?_⟩
    intro k hk _
    simp at hk
    rw [hk]

theorem bestAbove_acc (p : Int) (after : Option EffectKeyframe)
    (ha : ∀ a, after = some a → p < a.frame) : BestAbove p after.toList after := by
  cases after with
  | none => intro k hk; simp at hk
  | some a =>
    refine ⟨by simp, ha a rfl, ?_⟩
    intro k hk _
    simp at hk
    rw [hk]

/-- Adding a keyframe that is not below `p` changes nothing for `BestBelow`. -/
theorem bestBelow_insert_irrelevant (p : Int) (acc rest : List EffectKeyframe)
    (k : EffectKeyframe) (o : Option EffectKeyframe)
    (hk : ∀ b ∈ acc ++ rest, (∀ x ∈ acc ++ rest, x.frame < p → x.frame ≤ b.frame) →
      k.frame < p → k.frame ≤ b.frame)
    (hnone : (∀ x ∈ acc ++ rest, ¬ x.frame < p) → ¬ k.frame < p)
    (h : BestBelow p (acc ++ rest) o) : BestBelow p (acc ++ k :: rest) o := by
  cases o with
  | none =>
    intro x hx
    simp only [List.mem_append, List.mem_cons] at hx
    rcases hx with hx | rfl | hx
    · exact h x (by simp [hx])
    · exact hnone h
    · exact h x (by simp [hx])
  | some b =>
    obtain ⟨hmem, hlt, hmax⟩ := h
    refine ⟨?_, hlt, ?_⟩
    · simp only [List.mem_append, List.mem_cons] at hmem ⊢
      tauto
    · intro x hx hxp
      simp only [List.mem_append, List.mem_cons] at hx
      rcases hx with hx | rfl | hx
      · exact hmax x (by simp [hx]) hxp
      · exact hk b hmem hmax hxp
      · exact hmax x (by simp [hx]) hxp

theorem bestAbove_insert_irrelevant (p : Int) (acc rest : List EffectKeyframe)
    (k : EffectKeyframe) (o : Option EffectKeyframe)
    (hk : ∀ a ∈ acc ++ rest, (∀ x ∈ acc ++ rest, p < x.frame → a.frame ≤ x.frame) →
      p < k.frame → a.frame ≤ k.frame)
    (hnone : (∀ x ∈ acc ++ rest, ¬ p < x.frame) → ¬ p < k.frame)
    (h : BestAbove p (acc ++ rest) o) : BestAbove p (acc ++ k :: rest) o := by
  cases o with
  | none =>
    intro x hx
    simp only [List.mem_append, List.mem_cons] at hx
    rcases hx with hx | rfl | hx
    · exact h x (by simp [hx])
    · exact hnone h
    · exact h x (by simp [hx])
  | some b =>
    obtain ⟨hmem, hlt, hmax⟩ := h
    refine ⟨?_, hlt, ?_⟩
    · simp only [List.mem_append, List.mem_cons] at hmem ⊢
      tauto
    · intro x hx hxp
      simp only [List.mem_append, List.mem_cons] at hx
      rcases hx with hx | rfl | hx
      · exact hmax x (by simp [hx]) hxp
      · exact hk b hmem hmax hxp
      · exact hmax x (by simp [hx]) hxp

/-- When no keyframe of the scanned list sits exactly at `p`, the loop runs to its
end and leaves in `before` / `after` the tightest bounds among the starting
pointers and the scanned keyframes. -/
theorem scanKeyframes_bounds (p : Int) :
    ∀ (ks : List EffectKeyframe) (before after : Option EffectKeyframe),
      (∀ k ∈ ks, k.frame ≠ p) →
      (∀ b, before = some b → b.frame < p) →
      (∀ a, after = some a → p < a.frame) →
      ∃ b' a', scanKeyframes p ks before after = .bounds b' a' ∧
        BestBelow p (before.toList ++ ks) b' ∧ BestAbove p (after.toList ++ ks) a' := by
  intro ks
  induction ks with
  | nil =>
    intro before after _ hb ha
    exact ⟨before, after, rfl, by simpa using bestBelow_acc p before hb,
      by simpa using bestAbove_acc p after ha⟩
  | cons k rest ih =>
    intro before after hp hb ha
    have hkp : k.frame ≠ p := hp k (by simp)
    have hrest : ∀ x ∈ rest, x.frame ≠ p := fun x hx => hp x (by simp [hx])
    unfold scanKeyframes
    rw [if_neg hkp]
    by_cases h1 : k.frame < p ∧ ¬ (notLaterThan k before = true)
    · rw [if_pos h1]
      obtain ⟨b', a', he, hB, hA⟩ := ih (some k) after hrest
        (by intro b hbk; cases hbk; exact h1.1) ha
      refine ⟨b', a', he, ?_, ?_⟩
      · -- the new pointer beats the old one
        cases b' with
        | none => exact absurd h1.1 (hB k (by simp))
        | some bb =>
          obtain ⟨hmem, hlt, hmax⟩ := hB
          refine ⟨?_, hlt, ?_⟩
          · simp only [Option.toList, List.mem_append, List.mem_cons, List.singleton_append] at hmem ⊢
            tauto
          · intro x hx hxp
            simp only [List.mem_append, Option.mem_toList, List.mem_cons] at hx
            rcases hx with hx | rfl | hx
            · have hkb : k.frame ≤ bb.frame := hmax k (by simp) h1.1
              have : ¬ (x.frame ≥ k.frame) := by
                intro hge
                apply h1.2
                have hx' : before = some x := hx
                simp [hx', notLaterThan]
                omega
              omega
            · exact hmax x (by simp) hxp
            · exact hmax x (by simp [hx]) hxp
      · apply bestAbove_insert_irrelevant p after.toList rest k a' _ _ hA
        · intro a _ _ hpk; omega
        · intro _ hpk; omega
    · rw [if_neg h1]
      by_cases h2 : k.frame > p ∧ ¬ (notEarlierThan k after = true)
      · rw [if_pos h2]
        obtain ⟨b', a', he, hB, hA⟩ := ih before (some k) hrest hb
          (by intro a hak; cases hak; exact h2.1)
        refine ⟨b', a', he, ?_, ?_⟩
        · apply bestBelow_insert_irrelevant p before.toList rest k b' _ _ hB
          · intro a _ _ hpk; omega
          · intro _ hpk; omega
        · cases a' with
          | none => exact absurd h2.1 (hA k (by simp))
          | some aa =>
            obtain ⟨hmem, hlt, hmin⟩ := hA
            refine ⟨?_, hlt, ?_⟩
            · simp only [Option.toList, List.mem_append, List.mem_cons, List.singleton_append] at hmem ⊢
              tauto
            · intro x hx hxp
              simp only [List.mem_append, Option.mem_toList, List.mem_cons] at hx
              rcases hx with hx | rfl | hx
              · have hkb : aa.frame ≤ k.frame := hmin k (by simp) h2.1
                have : ¬ (k.frame ≥ x.frame) := by
                  intro hge
                  apply h2.2
                  have hx' : after = some x := hx
                  simp [hx', notEarlierThan]
                  omega
                omega
              · exact hmin x (by simp) hxp
              · exact hmin x (by simp [hx]) hxp
      · rw [if_neg h2]
        obtain ⟨b', a', he, hB, hA⟩ := ih before after hrest hb ha
        refine ⟨b', a', he, ?_, ?_⟩
        · apply bestBelow_insert_irrelevant p before.toList rest k b' _ _ hB
          · intro b hbmem hbmax hkp'
            -- the loop skipped `k` although it is below `p`: `before` is set and not earlier
            have hnl : notLaterThan k before = true := by
              by_contra hc; exact h1 ⟨hkp', hc⟩
            cases hbf : before with
            | none => simp [hbf, notLaterThan] at hnl
            | some b0 =>
              simp [hbf, notLaterThan] at hnl
              have := hbmax b0 (by simp [hbf]) (hb b0 hbf)
              omega
          · intro hall hkp'
            have hnl : notLaterThan k before = true := by
              by_contra hc; exact h1 ⟨hkp', hc⟩
            cases hbf : before with
            | none => simp [hbf, notLaterThan] at hnl
            | some b0 => exact hall b0 (by simp [hbf]) (hb b0 hbf)
        · apply bestAbove_insert_irrelevant p after.toList rest k a' _ _ hA
          · intro a hamem hamin hkp'
            have hnl : notEarlierThan k after = true := by
              by_contra hc; exact h2 ⟨hkp', hc⟩
            cases haf : after with
            | none => simp [haf, notEarlierThan] at hnl
            | some a0 =>
              simp [haf, notEarlierThan] at hnl
              have := hamin a0 (by simp [haf]) (ha a0 haf)
              omega
          · intro hall hkp'
            have hnl : notEarlierThan k after = true := by
              by_contra hc; exact h2 ⟨hkp', hc⟩
            cases haf : after with
            | none => simp [haf, notEarlierThan] at hnl
            | some a0 => exact hall a0 (by simp [haf]) (ha a0 haf)

/-- With pairwise distinct frames, a scan for the frame of a keyframe of the list
returns from inside the loop with that keyframe's data. -/
theorem scanKeyframes_hit (k : EffectKeyframe) :
    ∀ (ks : List EffectKeyframe) (before after : Option EffectKeyframe),
      (ks.map EffectKeyframe.frame).Nodup → k ∈ ks →
      scanKeyframes k.frame ks before after = .returned k.data := by
  intro ks
  induction ks with
  | nil => intro _ _ _ hk; simp at hk
  | cons x rest ih =>
    intro before after hd hk
    unfold scanKeyframes
    by_cases hx : x.frame = k.frame
    · have hxk : x = k := List.inj_on_of_nodup_map hd (by simp) hk hx
      rw [if_pos hx, hxk]
    · have hk' : k ∈ rest := by
        rcases List.mem_cons.mp hk with h | h
        · exact absurd (by rw [h]) hx
        · exact h
      have hd' : (rest.map EffectKeyframe.frame).Nodup := by
        simp only [List.map_cons, List.nodup_cons] at hd
        exact hd.2
      rw [if_neg hx]
      split_ifs
      · exact ih _ _ hd' hk'
      · exact ih _ _ hd' hk'
      · exact ih _ _ hd' hk'

/-- With pairwise distinct frames the tightest lower bound is unique, so it does not
depend on the order of the list. -/
theorem bestBelow_unique (p : Int) (ks ks' : List EffectKeyframe)
    (hd : (ks.map EffectKeyframe.frame).Nodup) (hperm : ks.Perm ks')
    (o o' : Option EffectKeyframe) (h : BestBelow p ks o) (h' : BestBelow p ks' o') :
    o = o' := by
  cases o with
  | none =>
    cases o' with
    | none => rfl
    | some b' => exact absurd h'.2.1 (h b' (hperm.mem_iff.mpr h'.1))
  | some b =>
    cases o' with
    | none => exact absurd h.2.1 (h' b (hperm.mem_iff.mp h.1))
    | some b' =>
      have h1 : b'.frame ≤ b.frame := h.2.2 b' (hperm.mem_iff.mpr h'.1) h'.2.1
      have h2 : b.frame ≤ b'.frame := h'.2.2 b (hperm.mem_iff.mp h.1) h.2.1
      have : b = b' :=
        List.inj_on_of_nodup_map hd h.1 (hperm.mem_iff.mpr h'.1) (le_antisymm h2 h1)
      rw [this]

theorem bestAbove_unique (p : Int) (ks ks' : List EffectKeyframe)
    (hd : (ks.map EffectKeyframe.frame).Nodup) (hperm : ks.Perm ks')
    (o o' : Option EffectKeyframe) (h : BestAbove p ks o) (h' : BestAbove p ks' o') :
    o = o' := by
  cases o with
  | none =>
    cases o' with
    | none => rfl
    | some a' => exact absurd h'.2.1 (h a' (hperm.mem_iff.mpr h'.1))
  | some a =>
    cases o' with
    | none => exact absurd h.2.1 (h' a (hperm.mem_iff.mp h.1))
    | some a' =>
      have h1 : a.frame ≤ a'.frame := h.2.2 a' (hperm.mem_iff.mpr h'.1) h'.2.1
      have h2 : a'.frame ≤ a.frame := h'.2.2 a (hperm.mem_iff.mp h.1) h.2.1
      have : a = a' :=
        List.inj_on_of_nodup_map hd h.1 (hperm.mem_iff.mpr h'.1) (le_antisymm h1 h2)
      rw [this]

/-- The scan started with both pointers NULL, for a query that hits no keyframe. -/
theorem scanKeyframes_spec (p : Int) (ks : List EffectKeyframe)
    (hp : ∀ k ∈ ks, k.frame ≠ p) :
    ∃ b a, scanKeyframes p ks none none = .bounds b a ∧ BestBelow p ks b ∧ BestAbove p ks a := by
  obtain ⟨b, a, he, hB, hA⟩ := scanKeyframes_bounds p ks none none hp
    (by intro b hb; cases hb) (by intro a ha; cases ha)
  exact ⟨b, a, he, by simpa using hB, by simpa using hA⟩

/-- A field whose list is a first entry followed by at least one more keyframe does
not take the `keyframes.size() == 1` exit. -/
theorem get_keyframe_data_cons (ty : EffectFieldType) (s : EffectKeyframe)
    (ks : List EffectKeyframe) (hne : ks ≠ []) (p : Int) :
    (EffectField.mk ty (s :: ks)).get_keyframe_data p =
      match scanKeyframes p ks none none with
      | .returned data => some data
      | .bounds (some before) (some after) => interpolate ty p before after
      | .bounds (some before) none => some before.data
      | .bounds none (some after) => some after.data
      | .bounds none none => none := by
  have hlen : ¬ ((s :: ks).length = 1) := by
    cases ks with
    | nil => exact absurd rfl hne
    | cons _ _ => simp
  simp only [EffectField.get_keyframe_data, if_neg hlen, List.drop_succ_cons, List.drop_zero]

/-- Strictly between two frames the truncated quotient `progress` is zero. -/
theorem progress_eq_zero (p tb ta : Int) (h1 : tb < p) (h2 : p < ta) :
    Int.tdiv (p - tb) (ta - tb) = 0 :=
  Int.tdiv_eq_zero_of_lt (by omega) (by omega)

/-- For a query that hits no explicit keyframe, `get_keyframe_data` is decided by the
tightest bounds among the explicit keyframes. -/
theorem get_keyframe_data_resolve (ty : EffectFieldType) (s : EffectKeyframe)
    (ks : List EffectKeyframe) (hne : ks ≠ []) (p : Int) (hp : ∀ k ∈ ks, k.frame ≠ p) :
    ∃ b a, BestBelow p ks b ∧ BestAbove p ks a ∧
      (EffectField.mk ty (s :: ks)).get_keyframe_data p =
        match b, a with
        | some before, some after => interpolate ty p before after
        | some before, none => some before.data
        | none, some after => some after.data
        | none, none => none := by
  obtain ⟨b, a, he, hB, hA⟩ := scanKeyframes_spec p ks hp
  refine ⟨b, a, hB, hA, ?_⟩
  rw [get_keyframe_data_cons ty s ks hne p, he]
  cases b <;> cases a <;> rfl

/-- A non-empty list with no keyframe below `p` and none at `p` has one above. -/
theorem bestAbove_isSome (p : Int) (ks : List EffectKeyframe) (a : Option EffectKeyframe)
    (hA : BestAbove p ks a) (k : EffectKeyframe) (hk : k ∈ ks) (hkp : p < k.frame) :
    ∃ ka, a = some ka := by
  cases a with
  | none => exact absurd hkp (hA k hk)
  | some ka => exact ⟨ka, rfl⟩

theorem bestBelow_isSome (p : Int) (ks : List EffectKeyframe) (b : Option EffectKeyframe)
    (hB : BestBelow p ks b) (k : EffectKeyframe) (hk : k ∈ ks) (hkp : k.frame < p) :
    ∃ kb, b = some kb := by
  cases b with
  | none => exact absurd hkp (hB k hk)
  | some kb => exact ⟨kb, rfl⟩

/-- In the interpolation block of a discrete kind the result is `before->data`. -/
theorem interpolate_discrete (ty : EffectFieldType) (p : Int) (before after : EffectKeyframe)
    (hlt : before.frame < after.frame)
    (hty : ty = EFFECT_FIELD_STRING ∨ ty = EFFECT_FIELD_BOOL ∨ ty = EFFECT_FIELD_COMBO ∨
      ty = EFFECT_FIELD_FONT) :
    interpolate ty p before after = some before.data := by
  have hne : ¬ (after.frame - before.frame = 0) := by omega
  rcases hty with h | h | h | h <;> subst h <;> simp [interpolate, hne]

/-- In the interpolation block of a double field the truncated `progress` is zero, so
the result is the `before` value. -/
theorem interpolate_double (p : Int) (before after : EffectKeyframe)
    (h1 : before.frame < p) (h2 : p < after.frame) :
    interpolate EFFECT_FIELD_DOUBLE p before after = some (.double before.data.toDouble) := by
  have hne : ¬ (after.frame - before.frame = 0) := by omega
  simp [interpolate, hne, progress_eq_zero p before.frame after.frame h1 h2, lerp]

/-- In the interpolation block of a colour field the result is built by the
three-argument constructor, whose alpha is 255. -/
theorem interpolate_color_alpha (p : Int) (before after : EffectKeyframe)
    (hlt : before.frame < after.frame) :
    ∃ c, interpolate EFFECT_FIELD_COLOR p before after = some (.color c) ∧ c.alpha = 255 := by
  have hne : ¬ (after.frame - before.frame = 0) := by omega
  simp [interpolate, hne, QColor.rgb]

/-! ## Bezier helpers: lemmas -/

namespace Bezier

/-- The quadratic in powers of `t`. -/
theorem QuadraticTtoY_expand (a b c t : ℝ) :
    QuadraticTtoY a b c t = (a - 2 * b + c) * t ^ 2 + 2 * (b - a) * t + a := by
  unfold QuadraticTtoY; ring

theorem cubicSlopeBound_nonneg (a b c d : ℝ) : 0 ≤ cubicSlopeBound a b c d := by
  unfold cubicSlopeBound; positivity

end Bezier

namespace Bezier

end Bezier

/-! ## The render worker: lemmas -/

namespace Bezier

end Bezier

/-! ## Saving an effect: lemmas -/

/-- Inside row `i` the key loop writes the keyframe at index `i` once per pass,
whatever the pass number is. -/
theorem saveKeys_repeats (field : EffectField) (i : Nat) (key : EffectKeyframe)
    (hkey : field.keyframes.get? i = some key) :
    ∀ remaining k : Nat, saveKeys field i remaining k =
      some ((List.replicate remaining key).flatMap (saveKey field.type)) := by
  intro remaining
  induction remaining with
  | zero => intro k; rfl
  | succ n ih =>
    intro k
    simp only [saveKeys, hkey, ih (k + 1), List.replicate_succ, List.flatMap_cons]

/-- A row index beyond the field's keyframes makes the first pass read outside the
list. -/
theorem saveKeys_out_of_range (field : EffectField) (i : Nat)
    (hout : field.keyframes.length ≤ i) (remaining k : Nat) :
    saveKeys field i (remaining + 1) k = none := by
  have hnone : field.keyframes.get? i = none := List.get?_eq_none.mpr hout
  simp only [saveKeys, hnone]

/-! ## The shader lock: lemmas -/

theorem lockFree_append (xs ys : List GLOp) :
    lockFree (xs ++ ys) = (lockFree xs && lockFree ys) := by
  simp [lockFree, List.all_append]

theorem lockFree_cons (op : GLOp) (xs : List GLOp) :
    lockFree (op :: xs) = (!isLockCall op && lockFree xs) := by
  simp [lockFree]

/-- While the lock is held, a stretch without lock calls keeps it held. -/
theorem lockHeldAtUses_append_held (xs ys : List GLOp) (hx : lockFree xs = true) :
    lockHeldAtUses (xs ++ ys) true = lockHeldAtUses ys true := by
  induction xs with
  | nil => rfl
  | cons op rest ih =>
    rw [lockFree_cons, Bool.and_eq_true] at hx
    have hrest := ih hx.2
    have hop := hx.1
    cases op <;> simp_all [lockHeldAtUses, isLockCall]

/-- A stretch without lock calls and without uses of the shader is fine in any
lock state. -/
theorem lockHeldAtUses_idle (xs : List GLOp) (held : Bool) (hx : lockFree xs = true)
    (hu : shaderIdle xs = true) : lockHeldAtUses xs held = true := by
  induction xs with
  | nil => rfl
  | cons op rest ih =>
    rw [lockFree_cons, Bool.and_eq_true] at hx
    have hu2 : (!usesShader op) = true ∧ shaderIdle rest = true := by
      simpa [shaderIdle] using hu
    have hrest := ih hx.2 hu2.2
    have hop := hx.1
    have huse := hu2.1
    cases op <;> simp_all [lockHeldAtUses, isLockCall, usesShader]

theorem count_of_lockFree (xs : List GLOp) (hx : lockFree xs = true) :
    xs.count GLOp.Lock = 0 ∧ xs.count GLOp.Unlock = 0 := by
  have hall : ∀ op ∈ xs, (!isLockCall op) = true := by
    simpa [lockFree] using hx
  constructor
  · exact List.count_eq_zero.mpr fun h => by simpa [isLockCall] using hall _ h
  · exact List.count_eq_zero.mpr fun h => by simpa [isLockCall] using hall _ h

theorem bindTextureOps_lockFree (shader : OpenGLShader) (param : NodeParam)
    (variable_location : Int) (input_texture_count : Nat) :
    lockFree (bindTextureOps shader param variable_location input_texture_count) = true := by
  unfold bindTextureOps
  simp only [lockFree_append, lockFree_cons, Bool.and_eq_true]
  refine ⟨⟨⟨by simp [isLockCall, lockFree], ?_⟩, ?_⟩, by simp [isLockCall, lockFree]⟩
  · split_ifs <;> simp [isLockCall, lockFree]
  · split
    · split_ifs <;> simp [isLockCall, lockFree]
    · simp [lockFree]

/-- One pass of the binding loop leaves the state alone, or appends one uniform
assignment, or binds a texture on the next free unit. -/
theorem bindParam_cases (shader : OpenGLShader) (node : Node) (st : BindState)
    (idx : Nat) (param : NodeParam) :
    bindParam shader node st idx param = st ∨
    bindParam shader node st idx param =
      { st with ops := st.ops ++ [GLOp.SetUniform (shader.uniformLocation param.id)
          (.converted param.data_type param.value)] } ∨
    bindParam shader node st idx param =
      { ops := st.ops ++ bindTextureOps shader param (shader.uniformLocation param.id)
          st.input_texture_count
        input_texture_count := st.input_texture_count + 1
        iterative_input :=
          if node.AcceleratedCodeIterativeInput = some idx then st.input_texture_count
          else st.iterative_input } := by
  by_cases h1 : param.isInput = true
  · by_cases h2 : shader.uniformLocation param.id > -1
    · cases hdt : param.data_type <;> simp [bindParam, h1, h2, hdt]
    · left; simp [bindParam, h1, h2]
  · left; simp [bindParam, h1]

theorem bindParam_lockFree (shader : OpenGLShader) (node : Node) (st : BindState)
    (idx : Nat) (param : NodeParam) (hst : lockFree st.ops = true) :
    lockFree (bindParam shader node st idx param).ops = true := by
  rcases bindParam_cases shader node st idx param with h | h | h <;> rw [h]
  · exact hst
  · show lockFree (st.ops ++ _) = true
    rw [lockFree_append, hst]
    rfl
  · show lockFree (st.ops ++ _) = true
    rw [lockFree_append, hst, bindTextureOps_lockFree]
    rfl

theorem bindParams_lockFree (shader : OpenGLShader) (node : Node) :
    ∀ (params : List NodeParam) (idx : Nat) (st : BindState), lockFree st.ops = true →
      lockFree (bindParams shader node params idx st).ops = true := by
  intro params
  induction params with
  | nil => intro idx st hst; exact hst
  | cons param rest ih =>
    intro idx st hst
    exact ih (idx + 1) _ (bindParam_lockFree shader node st idx param hst)

theorem standardOps_lockFree (w : Worker) (node : Node) :
    lockFree (standardOps w node) = true := by
  unfold standardOps
  cases node.transition <;> simp [lockFree, isLockCall]

theorem iterationOps_lockFree (dst_refs : List OpenGLTexture) (iterative_input k : Nat) :
    lockFree (iterationOps dst_refs iterative_input k) = true := by
  unfold iterationOps
  by_cases hk : k > 0 <;> simp [hk, lockFree, isLockCall]

theorem runIterations_lockFree (dst_refs : List OpenGLTexture) (iterative_input : Nat) :
    ∀ (remaining iteration : Nat) (output_tex : Option OpenGLTexture),
      lockFree (runIterations dst_refs iterative_input remaining iteration output_tex).1 =
        true := by
  intro remaining
  induction remaining with
  | zero => intro _ _; rfl
  | succ n ih =>
    intro iteration output_tex
    simp only [runIterations, lockFree_append, iterationOps_lockFree, ih, Bool.and_self]

theorem releaseTextures_idle :
    ∀ n : Nat, lockFree (releaseTextures n) = true ∧ shaderIdle (releaseTextures n) = true := by
  intro n
  induction n with
  | zero => exact ⟨rfl, rfl⟩
  | succ n ih =>
    obtain ⟨h1, h2⟩ := ih
    constructor
    · simpa [releaseTextures, lockFree, isLockCall] using h1
    · simpa [releaseTextures, shaderIdle, usesShader] using h2

/-- A sequence of the shape `Lock`, lock-free stretch, `Unlock`, idle stretch uses
the shader only under the lock and locks and unlocks once. -/
theorem lockHeldAtUses_bracket (locked released : List GLOp)
    (h1 : lockFree locked = true) (h2 : lockFree released = true)
    (h3 : shaderIdle released = true) :
    ([GLOp.Lock] ++ locked ++ [GLOp.Unlock] ++ released).count GLOp.Lock = 1 ∧
    ([GLOp.Lock] ++ locked ++ [GLOp.Unlock] ++ released).count GLOp.Unlock = 1 ∧
    lockHeldAtUses ([GLOp.Lock] ++ locked ++ [GLOp.Unlock] ++ released) false = true := by
  have hc1 := count_of_lockFree _ h1
  have hc2 := count_of_lockFree _ h2
  refine ⟨?_, ?_, ?_⟩
  · simp only [List.count_append, hc1.1, hc2.1]
    simp
  · simp only [List.count_append, hc1.2, hc2.2]
    simp
  · have hshape : [GLOp.Lock] ++ locked ++ [GLOp.Unlock] ++ released =
        GLOp.Lock :: (locked ++ GLOp.Unlock :: released) := by simp
    rw [hshape]
    show lockHeldAtUses (locked ++ GLOp.Unlock :: released) true = true
    rw [lockHeldAtUses_append_held _ _ h1]
    show lockHeldAtUses released false = true
    exact lockHeldAtUses_idle _ false h2 h3

/-! ## Texture bindings: lemmas -/

theorem runBindings_append (xs ys : List GLOp) :
    ∀ s : GLBindings, runBindings (xs ++ ys) s = runBindings ys (runBindings xs s) := by
  induction xs with
  | nil => intro s; rfl
  | cons op rest ih => intro s; exact ih (s.step op)

/-- A unit bound by a concatenation is bound by one of its two parts. -/
theorem mem_unitsBound_append (ys : List GLOp) (u : Nat) :
    ∀ (xs : List GLOp) (a : Nat), u ∈ unitsBound (xs ++ ys) a →
      u ∈ unitsBound xs a ∨ ∃ a2, u ∈ unitsBound ys a2 := by
  intro xs
  induction xs with
  | nil => intro a h; exact Or.inr ⟨a, h⟩
  | cons op rest ih =>
    intro a h
    cases op
    case ActiveTexture unit => exact ih unit h
    case BindTexture id =>
      simp only [List.cons_append, unitsBound, List.mem_cons] at h ⊢
      rcases h with h | h
      · exact Or.inl (Or.inl h)
      · rcases ih a h with h2 | h2
        · exact Or.inl (Or.inr h2)
        · exact Or.inr h2
    all_goals exact ih a h

/-- The release loop for `n` units leaves every unit below `n` bound to 0 and does
not touch the others. -/
theorem runBindings_releaseTextures :
    ∀ (n : Nat) (s : GLBindings),
      (∀ u, u < n → (runBindings (releaseTextures n) s).bound u = 0) ∧
      (∀ u, n ≤ u → (runBindings (releaseTextures n) s).bound u = s.bound u) := by
  intro n
  induction n with
  | zero =>
    intro s
    exact ⟨fun u hu => absurd hu (Nat.not_lt_zero u), fun u _ => rfl⟩
  | succ n ih =>
    intro s
    have hstep : runBindings (releaseTextures (n + 1)) s =
        runBindings (releaseTextures n)
          ((s.step (.ActiveTexture n)).step (.BindTexture 0)) := rfl
    obtain ⟨hlow, hhigh⟩ := ih ((s.step (.ActiveTexture n)).step (.BindTexture 0))
    rw [hstep]
    constructor
    · intro u hu
      by_cases hun : u < n
      · exact hlow u hun
      · have hueq : u = n := by omega
        rw [hhigh u (by omega), hueq]
        simp [GLBindings.step]
    · intro u hu
      rw [hhigh u (by omega)]
      have hne : u ≠ n := by omega
      simp [GLBindings.step, hne]

/-- The units the release loop binds on are those below `n`. -/
theorem unitsBound_releaseTextures :
    ∀ (n a u : Nat), u ∈ unitsBound (releaseTextures n) a → u < n := by
  intro n
  induction n with
  | zero => intro a u h; simp [releaseTextures, unitsBound] at h
  | succ n ih =>
    intro a u h
    simp only [releaseTextures, List.cons_append, List.nil_append, unitsBound,
      List.mem_cons] at h
    rcases h with h | h
    · omega
    · have := ih n u h
      omega

/-- Binding one texture input binds on the unit `input_texture_count` only. -/
theorem unitsBound_bindTextureOps (shader : OpenGLShader) (param : NodeParam)
    (variable_location : Int) (input_texture_count a u : Nat)
    (h : u ∈ unitsBound (bindTextureOps shader param variable_location input_texture_count) a) :
    u = input_texture_count := by
  unfold bindTextureOps at h
  simp only [List.cons_append, List.nil_append, unitsBound, List.mem_cons] at h
  rcases h with h | h
  · exact h
  · exfalso
    split_ifs at h <;> (split at h <;> (try split_ifs at h) <;> simp [unitsBound] at h)

theorem bindParam_invariant (shader : OpenGLShader) (node : Node) (st : BindState)
    (idx : Nat) (param : NodeParam) (hst : BindInvariant st) :
    BindInvariant (bindParam shader node st idx param) := by
  obtain ⟨hunits, hzero, hpos⟩ := hst
  rcases bindParam_cases shader node st idx param with h | h | h <;> rw [h]
  · exact ⟨hunits, hzero, hpos⟩
  · refine ⟨?_, hzero, hpos⟩
    intro a u hu
    rcases mem_unitsBound_append _ u st.ops a hu with h1 | ⟨a2, h2⟩
    · exact hunits a u h1
    · simp [unitsBound] at h2
  · refine ⟨?_, ?_, ?_⟩
    · intro a u hu
      show u < st.input_texture_count + 1
      rcases mem_unitsBound_append _ u st.ops a hu with h1 | ⟨a2, h2⟩
      · have := hunits a u h1
        omega
      · have := unitsBound_bindTextureOps _ _ _ _ _ _ h2
        omega
    · intro hc
      exact absurd hc (Nat.succ_ne_zero _)
    · intro _
      show (if node.AcceleratedCodeIterativeInput = some idx then st.input_texture_count
        else st.iterative_input) < st.input_texture_count + 1
      split_ifs
      · omega
      · rcases Nat.eq_zero_or_pos st.input_texture_count with h0 | h0
        · rw [hzero h0]; omega
        · have := hpos h0
          omega

theorem bindParams_invariant (shader : OpenGLShader) (node : Node) :
    ∀ (params : List NodeParam) (idx : Nat) (st : BindState), BindInvariant st →
      BindInvariant (bindParams shader node params idx st) := by
  intro params
  induction params with
  | nil => intro idx st hst; exact hst
  | cons param rest ih =>
    intro idx st hst
    exact ih (idx + 1) _ (bindParam_invariant shader node st idx param hst)

theorem unitsBound_standardOps (w : Worker) (node : Node) (a : Nat) :
    unitsBound (standardOps w node) a = [] := by
  unfold standardOps
  cases node.transition <;> simp [unitsBound]

/-- A pass of the iteration loop binds on the unit `iterative_input` only, and the
first pass binds nothing. -/
theorem unitsBound_iterationOps (dst_refs : List OpenGLTexture)
    (iterative_input k a u : Nat)
    (h : u ∈ unitsBound (iterationOps dst_refs iterative_input k) a) :
    u = iterative_input ∧ 0 < k := by
  unfold iterationOps at h
  by_cases hk : k > 0
  · simp [hk, unitsBound] at h
    exact ⟨h, hk⟩
  · simp [hk, unitsBound] at h

theorem unitsBound_runIterations (dst_refs : List OpenGLTexture) (iterative_input : Nat) :
    ∀ (remaining iteration : Nat) (output_tex : Option OpenGLTexture) (a u : Nat),
      u ∈ unitsBound
        (runIterations dst_refs iterative_input remaining iteration output_tex).1 a →
      u = iterative_input ∧ 1 < iteration + remaining := by
  intro remaining
  induction remaining with
  | zero => intro iteration output_tex a u h; simp [runIterations, unitsBound] at h
  | succ n ih =>
    intro iteration output_tex a u h
    simp only [runIterations] at h
    rcases mem_unitsBound_append _ u _ a h with h1 | ⟨a2, h2⟩
    · have := unitsBound_iterationOps _ _ _ _ _ h1
      exact ⟨this.1, by omega⟩
    · have := ih _ _ _ _ h2
      exact ⟨this.1, by omega⟩

/-- Where the release loop is enough: when at least one texture input was bound, or
the node has at most one iteration, every unit on which the call bound a texture
is bound to 0 when the call is over. -/
theorem RunNodeAccelerated_units_released (w : Worker) (node : Node) (shader : OpenGLShader)
    (hs : w.shader = some shader)
    (hcase : 0 < (bindParams shader node node.parameters 0 ⟨[], 0, 0⟩).input_texture_count ∨
      node.AcceleratedCodeIterations ≤ 1)
    (s : GLBindings) (a u : Nat)
    (hu : u ∈ unitsBound (RunNodeAccelerated w node).ops a) :
    (runBindings (RunNodeAccelerated w node).ops s).bound u = 0 := by
  have hinv : BindInvariant (bindParams shader node node.parameters 0 ⟨[], 0, 0⟩) :=
    bindParams_invariant shader node node.parameters 0 ⟨[], 0, 0⟩
      ⟨by intro a u h; simp [unitsBound] at h, fun _ => rfl, fun h => absurd h (lt_irrefl 0)⟩
  obtain ⟨hunits, _, hpos⟩ := hinv
  have hops : (RunNodeAccelerated w node).ops =
      ((([GLOp.Lock, GLOp.ShaderBind] ++
        (bindParams shader node node.parameters 0 ⟨[], 0, 0⟩).ops) ++ standardOps w node) ++
        (runIterations (dstRefs w node)
          (bindParams shader node node.parameters 0 ⟨[], 0, 0⟩).iterative_input
          node.AcceleratedCodeIterations.toNat 0 none).1 ++ [GLOp.Unlock]) ++
      (releaseTextures (bindParams shader node node.parameters 0 ⟨[], 0, 0⟩).input_texture_count
        ++ [GLOp.ShaderRelease]) := by
    simp only [RunNodeAccelerated, hs, List.append_assoc, List.cons_append, List.nil_append]
  -- every unit the call binds on is below the number of bound inputs
  have hbelow : u < (bindParams shader node node.parameters 0 ⟨[], 0, 0⟩).input_texture_count := by
    rw [hops] at hu
    rcases mem_unitsBound_append _ u _ a hu with h1 | ⟨a2, h2⟩
    · rcases mem_unitsBound_append _ u _ a h1 with h3 | ⟨a3, h4⟩
      · rcases mem_unitsBound_append _ u _ a h3 with h5 | ⟨a5, h6⟩
        · rcases mem_unitsBound_append _ u _ a h5 with h7 | ⟨a7, h8⟩
          · rcases mem_unitsBound_append _ u _ a h7 with h9 | ⟨a9, h10⟩
            · simp [unitsBound] at h9
            · exact hunits a9 u h10
          · rw [unitsBound_standardOps] at h8
            simp at h8
        · have hit := unitsBound_runIterations _ _ _ _ _ _ _ h6
          rcases hcase with hc | hc
          · rw [hit.1]; exact hpos hc
          · have : node.AcceleratedCodeIterations.toNat ≤ 1 := by omega
            omega
      · simp [unitsBound] at h4
    · rcases mem_unitsBound_append _ u _ a2 h2 with h3 | ⟨a3, h4⟩
      · exact unitsBound_releaseTextures _ _ _ h3
      · simp [unitsBound] at h4
  rw [hops, runBindings_append, runBindings_append]
  show (runBindings (releaseTextures _) _).bound u = 0
  exact (runBindings_releaseTextures _ _).1 u hbelow

/-! ## Keyframe resolution: the properties -/

/-- C1 (defect in the code). On the double field with keyframes `(0, 0.0)` and
`(10, 10.0)` the query at 5 returns `0.0`, the `before` value, while the
interpolation formula with the exact quotient gives `5.0`: `progress` is an integer
quotient and is 0 anywhere strictly between two keyframes. On the colour field with
`(0, rgb 255,0,0)` and `(10, rgb 0,0,255)` the query at 5 returns red 255 and blue 0,
not 127 or 128. -/
theorem get_keyframe_data_midpoint_truncated :
    rampField.get_keyframe_data 5 = some (.double 0) ∧
    linearInterpolation 0 0 10 10 5 = 5 ∧
    colorRampField.get_keyframe_data 5 = some (.color ⟨255, 0, 0, 255⟩) := by
  have h : Int.tdiv 5 10 = 0 := by decide
  refine ⟨?_, ?_, ?_⟩
  · simp [rampField, EffectField.get_keyframe_data, scanKeyframes, notLaterThan,
      notEarlierThan, interpolate, lerp, QVariant.toDouble, defaultKeyframe, h]
  · norm_num [linearInterpolation]
  · simp [colorRampField, EffectField.get_keyframe_data, scanKeyframes, notLaterThan,
      notEarlierThan, interpolate, lerp, QVariant.toColor, defaultKeyframe, truncToInt,
      QColor.rgb, h]

/-- C2 (counterexample). The claim fails for the keyframe stored at index 0: on the
field `[(-1, 1.0), (5, 2.0)]` the query at time -1 returns `2.0`, not the `1.0`
stored at index 0. -/
theorem get_keyframe_data_index_zero_skipped :
    ¬ (∀ f : EffectField, 2 ≤ f.keyframes.length →
        (f.keyframes.map EffectKeyframe.frame).Nodup →
        ∀ k ∈ f.keyframes, f.get_keyframe_data k.frame = some k.data) := by
  intro h
  have h0 := h sentinelThenKeyField (by simp [sentinelThenKeyField])
    (by simp [sentinelThenKeyField]) ⟨-1, 0, .double 1⟩ (by simp [sentinelThenKeyField])
  simp [sentinelThenKeyField, EffectField.get_keyframe_data, scanKeyframes, notLaterThan,
    notEarlierThan] at h0

/-- C2 (amended). For every field with at least two keyframes whose times are
pairwise distinct, and every keyframe stored at an index from 1 on, the query at
that keyframe's time returns exactly its stored value. -/
theorem get_keyframe_data_exact_hit (f : EffectField) (h2 : 2 ≤ f.keyframes.length)
    (hd : (f.keyframes.map EffectKeyframe.frame).Nodup)
    (i : Nat) (hi0 : 1 ≤ i) (hi : i < f.keyframes.length) :
    f.get_keyframe_data (f.keyframes.get ⟨i, hi⟩).frame =
      some (f.keyframes.get ⟨i, hi⟩).data := by
  obtain ⟨ty, kfs⟩ := f
  cases kfs with
  | nil => simp at h2
  | cons s ks =>
    have hne : ks ≠ [] := by
      intro h; rw [h] at h2; simp at h2
    obtain ⟨j, rfl⟩ : ∃ j, i = j + 1 := ⟨i - 1, by omega⟩
    have hj : j < ks.length := by simpa using hi
    have hget : (s :: ks).get ⟨j + 1, hi⟩ = ks.get ⟨j, hj⟩ := rfl
    have hmem : ks.get ⟨j, hj⟩ ∈ ks := List.get_mem ks j hj
    have hd' : (ks.map EffectKeyframe.frame).Nodup := by
      simp only [List.map_cons, List.nodup_cons] at hd
      exact hd.2
    simp only [hget]
    rw [get_keyframe_data_cons ty s ks hne, scanKeyframes_hit _ ks none none hd' hmem]

/-- C2 (amended), at a concrete field: index 1 of `[(-1, 1.0), (5, 2.0)]`. -/
theorem get_keyframe_data_exact_hit_witness :
    sentinelThenKeyField.get_keyframe_data 5 = some (.double 2) :=
  get_keyframe_data_exact_hit sentinelThenKeyField (by simp [sentinelThenKeyField])
    (by simp [sentinelThenKeyField]) 1 (le_refl 1) (by simp [sentinelThenKeyField])

/-- C4. For a field with explicit keyframes `ks` of pairwise distinct times stored
after the entry at index 0, and a query time `p` that is none of their times: if
some explicit keyframe lies before `p` and either none lies after `p` or the kind is
string, bool, combo or font, the result is the value of the explicit keyframe with
the greatest time below `p`; if none lies before `p`, the result is the value of the
explicit keyframe with the smallest time above `p`; and storing the explicit
keyframes in another order gives the same result. -/
theorem get_keyframe_data_tightest_bound (ty : EffectFieldType) (s : EffectKeyframe)
    (ks : List EffectKeyframe) (p : Int) (hne : ks ≠ [])
    (hd : (ks.map EffectKeyframe.frame).Nodup) (hp : ∀ k ∈ ks, k.frame ≠ p) :
    ((∃ k ∈ ks, k.frame < p) →
      ((∀ k ∈ ks, ¬ p < k.frame) ∨ ty = EFFECT_FIELD_STRING ∨ ty = EFFECT_FIELD_BOOL ∨
        ty = EFFECT_FIELD_COMBO ∨ ty = EFFECT_FIELD_FONT) →
      ∃ kb ∈ ks, kb.frame < p ∧ (∀ k ∈ ks, k.frame < p → k.frame ≤ kb.frame) ∧
        (EffectField.mk ty (s :: ks)).get_keyframe_data p = some kb.data) ∧
    ((∀ k ∈ ks, ¬ k.frame < p) →
      ∃ ka ∈ ks, p < ka.frame ∧ (∀ k ∈ ks, p < k.frame → ka.frame ≤ k.frame) ∧
        (EffectField.mk ty (s :: ks)).get_keyframe_data p = some ka.data) ∧
    (∀ ks2 : List EffectKeyframe, ks.Perm ks2 →
      (EffectField.mk ty (s :: ks2)).get_keyframe_data p =
        (EffectField.mk ty (s :: ks)).get_keyframe_data p) := by
  obtain ⟨b, a, hB, hA, he⟩ := get_keyframe_data_resolve ty s ks hne p hp
  refine ⟨?_, ?_, ?_⟩
  · rintro ⟨k, hk, hkp⟩ hcase
    obtain ⟨kb, rfl⟩ := bestBelow_isSome p ks b hB k hk hkp
    refine ⟨kb, hB.1, hB.2.1, hB.2.2, ?_⟩
    cases a with
    | none => exact he
    | some ka =>
      rcases hcase with hnone | hty
      · exact absurd hA.2.1 (hnone ka hA.1)
      · rw [he]
        exact interpolate_discrete ty p kb ka (lt_trans hB.2.1 hA.2.1) hty
  · intro hnone
    obtain ⟨k0, hk0⟩ := List.exists_mem_of_ne_nil ks hne
    have hk0p : p < k0.frame := by
      have h1 := hnone k0 hk0
      have h2 := hp k0 hk0
      omega
    obtain ⟨ka, rfl⟩ := bestAbove_isSome p ks a hA k0 hk0 hk0p
    cases b with
    | some kb => exact absurd hB.2.1 (hnone kb hB.1)
    | none => exact ⟨ka, hA.1, hA.2.1, hA.2.2, he⟩
  · intro ks2 hperm
    have hne2 : ks2 ≠ [] := by
      intro h; rw [h] at hperm; exact hne (List.Perm.eq_nil hperm)
    have hp2 : ∀ k ∈ ks2, k.frame ≠ p := fun k hk => hp k (hperm.mem_iff.mpr hk)
    obtain ⟨b2, a2, hB2, hA2, he2⟩ := get_keyframe_data_resolve ty s ks2 hne2 p hp2
    have hb : b = b2 := bestBelow_unique p ks ks2 hd hperm b b2 hB hB2
    have ha : a = a2 := bestAbove_unique p ks ks2 hd hperm a a2 hA hA2
    rw [he, he2, hb, ha]

/-- C4, at the text keyframes `(0, "a")`, `(10, "b")` queried at 5. -/
theorem get_keyframe_data_tightest_bound_witness :
    (textKeys ≠ [] ∧ (textKeys.map EffectKeyframe.frame).Nodup ∧
      ∀ k ∈ textKeys, k.frame ≠ 5) ∧
    ((∃ k ∈ textKeys, k.frame < 5) →
      ((∀ k ∈ textKeys, ¬ (5 : Int) < k.frame) ∨
        EFFECT_FIELD_STRING = EFFECT_FIELD_STRING ∨ EFFECT_FIELD_STRING = EFFECT_FIELD_BOOL ∨
        EFFECT_FIELD_STRING = EFFECT_FIELD_COMBO ∨ EFFECT_FIELD_STRING = EFFECT_FIELD_FONT) →
      ∃ kb ∈ textKeys, kb.frame < 5 ∧ (∀ k ∈ textKeys, k.frame < 5 → k.frame ≤ kb.frame) ∧
        (EffectField.mk EFFECT_FIELD_STRING (defaultKeyframe :: textKeys)).get_keyframe_data 5 =
          some kb.data) :=
  ⟨⟨by simp [textKeys], by simp [textKeys], by simp [textKeys]⟩,
    (get_keyframe_data_tightest_bound EFFECT_FIELD_STRING defaultKeyframe textKeys 5
      (by simp [textKeys]) (by simp [textKeys]) (by simp [textKeys])).1⟩

/-- C5 (counterexample). On the colour field with keyframes `(0, rgba 255,0,0,10)`
and `(10, rgba 0,0,255,200)` the query at 5 returns a colour of alpha 255, which is
not the alpha 10 of the `before` keyframe. -/
theorem get_keyframe_data_alpha_replaced :
    (colorRampField.get_keyframe_data 5).map (fun v => v.toColor.alpha) = some 255 ∧
    (colorRampField.get_keyframe_data 5).map (fun v => v.toColor.alpha) ≠
      some (QVariant.color ⟨255, 0, 0, 10⟩).toColor.alpha := by
  have h : Int.tdiv 5 10 = 0 := by decide
  have he : colorRampField.get_keyframe_data 5 = some (.color ⟨255, 0, 0, 255⟩) := by
    simp [colorRampField, EffectField.get_keyframe_data, scanKeyframes, notLaterThan,
      notEarlierThan, interpolate, lerp, QVariant.toColor, defaultKeyframe, truncToInt,
      QColor.rgb, h]
  rw [he]
  simp [QVariant.toColor]

/-- C5 (amended). For every colour field and every query time that lies strictly
between two explicit keyframes and is the time of none, the colour returned has
alpha 255, the default of the three-argument `QColor` constructor: the alpha of
neither surrounding keyframe is read. -/
theorem get_keyframe_data_color_alpha (s : EffectKeyframe) (ks : List EffectKeyframe)
    (p : Int) (hp : ∀ k ∈ ks, k.frame ≠ p)
    (hbefore : ∃ k ∈ ks, k.frame < p) (hafter : ∃ k ∈ ks, p < k.frame) :
    ∃ c, (EffectField.mk EFFECT_FIELD_COLOR (s :: ks)).get_keyframe_data p =
      some (.color c) ∧ c.alpha = 255 := by
  obtain ⟨k1, hk1, hk1p⟩ := hbefore
  obtain ⟨k2, hk2, hk2p⟩ := hafter
  have hne : ks ≠ [] := List.ne_nil_of_mem hk1
  obtain ⟨b, a, hB, hA, he⟩ := get_keyframe_data_resolve EFFECT_FIELD_COLOR s ks hne p hp
  obtain ⟨kb, rfl⟩ := bestBelow_isSome p ks b hB k1 hk1 hk1p
  obtain ⟨ka, rfl⟩ := bestAbove_isSome p ks a hA k2 hk2 hk2p
  rw [he]
  exact interpolate_color_alpha p kb ka (lt_trans hB.2.1 hA.2.1)

/-- C5 (amended), at the colour keyframes `(0, rgba 255,0,0,10)` and
`(10, rgba 0,0,255,200)` queried at 5. -/
theorem get_keyframe_data_color_alpha_witness :
    ∃ c, colorRampField.get_keyframe_data 5 = some (.color c) ∧ c.alpha = 255 :=
  get_keyframe_data_color_alpha defaultKeyframe
    [⟨0, 0, .color ⟨255, 0, 0, 10⟩⟩, ⟨10, 0, .color ⟨0, 0, 255, 200⟩⟩] 5
    (by simp) ⟨⟨0, 0, .color ⟨255, 0, 0, 10⟩⟩, by simp, by decide⟩
    ⟨⟨10, 0, .color ⟨0, 0, 255, 200⟩⟩, by simp, by decide⟩

/-- C12 (defect in the code). The key loop runs over `k` but reads
`field->keyframes.at(i)`, `i` being the row index. For an effect with one row
holding the field `[(-1, 1.0), (5, 2.0)]`, `save` writes two `<key>` elements that
both carry frame -1 and value 1.0, which is not the `<field>` element with one
`<key>` per keyframe; for a second row holding a field with a single keyframe it
reads index 1 of a list of length 1. -/
theorem save_reads_row_index :
    oneRowEffect.save = some (
      [.writeStartElement "row", .writeStartElement "field"] ++
        saveKey EFFECT_FIELD_DOUBLE ⟨-1, 0, .double 1⟩ ++
        saveKey EFFECT_FIELD_DOUBLE ⟨-1, 0, .double 1⟩ ++
        [.writeEndElement, .writeEndElement]) ∧
    oneRowEffect.save ≠ some (
      [.writeStartElement "row"] ++ fieldElement sentinelThenKeyField ++ [.writeEndElement]) ∧
    twoRowEffect.save = none := by
  refine ⟨rfl, ?_, rfl⟩
  have h : oneRowEffect.save = some (
      [.writeStartElement "row", .writeStartElement "field"] ++
        saveKey EFFECT_FIELD_DOUBLE ⟨-1, 0, .double 1⟩ ++
        saveKey EFFECT_FIELD_DOUBLE ⟨-1, 0, .double 1⟩ ++
        [.writeEndElement, .writeEndElement]) := rfl
  rw [h]
  simp [fieldElement, sentinelThenKeyField, saveKey, saveValue]

/-! ## Bezier helpers: the properties -/

/-- C7 (counterexample). For `a = 0`, `b = 0.5`, `c = 1` the inverse at `x = 0.5`
does not return `0.5`. -/
theorem QuadraticXtoT_half_not_returned :
    Bezier.QuadraticXtoT Real.sqrt (1 / 2 : ℝ) 0 (1 / 2) 1 ≠ some (1 / 2) := by
  have h : Bezier.QuadraticXtoT Real.sqrt (1 / 2 : ℝ) 0 (1 / 2) 1 = none := by
    norm_num [Bezier.QuadraticXtoT, Bezier.quadraticDiscriminant]
  rw [h]
  exact fun hc => Option.noConfusion hc

/-- C7 (amended). For `a = 0`, `b = 0.5`, `c = 1`: `QuadraticTtoY(a, b, c, 0.5)` is
`0.5`; in `QuadraticXtoT(0.5, a, b, c)` the divisor `a - 2*b + c` is zero, and so
is the numerator, so the quotient is not a number. -/
theorem QuadraticXtoT_half_degenerate :
    Bezier.QuadraticTtoY (0 : ℝ) (1 / 2) 1 (1 / 2) = 1 / 2 ∧
    (0 : ℝ) - 2 * (1 / 2) + 1 = 0 ∧
    (0 : ℝ) - 1 / 2 + Real.sqrt (Bezier.quadraticDiscriminant (1 / 2) 0 (1 / 2) 1) = 0 ∧
    Bezier.QuadraticXtoT Real.sqrt (1 / 2 : ℝ) 0 (1 / 2) 1 = none := by
  refine ⟨?_, ?_, ?_, ?_⟩
  · norm_num [Bezier.QuadraticTtoY]
  · norm_num
  · have hd : Bezier.quadraticDiscriminant (1 / 2 : ℝ) 0 (1 / 2) 1 = (1 / 2) ^ 2 := by
      norm_num [Bezier.quadraticDiscriminant]
    rw [hd, Real.sqrt_sq (by norm_num)]
    norm_num
  · norm_num [Bezier.QuadraticXtoT, Bezier.quadraticDiscriminant]

/-- C11 (defect in the code). The release loop unbinds the units below
`input_texture_count` only, while the iteration loop rebinds the unit
`iterative_input`, which stays 0 when no texture input was bound. For the example
node (three iterations, its iterative input unknown to the shader) the call binds
twice on unit 0 and, from any starting state, leaves unit 0 bound to texture 8;
for a node with two iterations and no input at all it leaves unit 0 bound to
texture 7. -/
theorem RunNodeAccelerated_leaves_unit_bound :
    unitsBound (RunNodeAccelerated exampleWorker exampleNode).ops 0 = [0, 0] ∧
    (∀ s : GLBindings,
      (runBindings (RunNodeAccelerated exampleWorker exampleNode).ops s).bound 0 = 8) ∧
    unitsBound (RunNodeAccelerated exampleWorker generatorNode).ops 0 = [0] ∧
    (∀ s : GLBindings,
      (runBindings (RunNodeAccelerated exampleWorker generatorNode).ops s).bound 0 = 7) :=
  ⟨rfl, fun _ => rfl, rfl, fun _ => rfl⟩

/-- C15. For a node that has a shader, the calls of `RunNodeAccelerated` are `Lock`,
a stretch without lock calls, `Unlock`, and a stretch without lock calls that
neither sets a uniform nor draws: every uniform assignment and every blit lies
between the one `Lock` and the one `Unlock`, so the shader is used only while its
lock is held. For a node without a shader no call is issued and nothing is
pushed. -/
theorem RunNodeAccelerated_lock_discipline (w : Worker) (node : Node) :
    (∀ shader : OpenGLShader, w.shader = some shader →
      (∃ locked released : List GLOp,
        (RunNodeAccelerated w node).ops = [GLOp.Lock] ++ locked ++ [GLOp.Unlock] ++ released ∧
        lockFree locked = true ∧ lockFree released = true ∧ shaderIdle released = true) ∧
      (RunNodeAccelerated w node).ops.count GLOp.Lock = 1 ∧
      (RunNodeAccelerated w node).ops.count GLOp.Unlock = 1 ∧
      lockHeldAtUses (RunNodeAccelerated w node).ops false = true) ∧
    (w.shader = none →
      (RunNodeAccelerated w node).ops = [] ∧ (RunNodeAccelerated w node).pushed = []) := by
  constructor
  · intro shader hs
    have hbound : lockFree
        (bindParams shader node node.parameters 0 ⟨[], 0, 0⟩).ops = true :=
      bindParams_lockFree shader node node.parameters 0 ⟨[], 0, 0⟩ rfl
    have hiter := runIterations_lockFree (dstRefs w node)
      (bindParams shader node node.parameters 0 ⟨[], 0, 0⟩).iterative_input
      node.AcceleratedCodeIterations.toNat 0 none
    have hrel := releaseTextures_idle
      (bindParams shader node node.parameters 0 ⟨[], 0, 0⟩).input_texture_count
    have hlocked : lockFree ([GLOp.ShaderBind] ++
        (bindParams shader node node.parameters 0 ⟨[], 0, 0⟩).ops ++ standardOps w node ++
        (runIterations (dstRefs w node)
          (bindParams shader node node.parameters 0 ⟨[], 0, 0⟩).iterative_input
          node.AcceleratedCodeIterations.toNat 0 none).1) = true := by
      rw [lockFree_append, lockFree_append, lockFree_append, hbound, standardOps_lockFree,
        hiter]
      rfl
    have hreleased : lockFree
        (releaseTextures (bindParams shader node node.parameters 0 ⟨[], 0, 0⟩).input_texture_count
          ++ [GLOp.ShaderRelease]) = true := by
      rw [lockFree_append, hrel.1]
      rfl
    have hidle : shaderIdle
        (releaseTextures (bindParams shader node node.parameters 0 ⟨[], 0, 0⟩).input_texture_count
          ++ [GLOp.ShaderRelease]) = true := by
      have h := hrel.2
      simp only [shaderIdle, List.all_append, Bool.and_eq_true] at h ⊢
      exact ⟨h, rfl⟩
    have hops : (RunNodeAccelerated w node).ops =
        [GLOp.Lock] ++ ([GLOp.ShaderBind] ++
          (bindParams shader node node.parameters 0 ⟨[], 0, 0⟩).ops ++ standardOps w node ++
          (runIterations (dstRefs w node)
            (bindParams shader node node.parameters 0 ⟨[], 0, 0⟩).iterative_input
            node.AcceleratedCodeIterations.toNat 0 none).1) ++ [GLOp.Unlock] ++
        (releaseTextures (bindParams shader node node.parameters 0 ⟨[], 0, 0⟩).input_texture_count
          ++ [GLOp.ShaderRelease]) := by
      simp only [RunNodeAccelerated, hs, List.append_assoc, List.cons_append, List.nil_append]
    have hbr := lockHeldAtUses_bracket _ _ hlocked hreleased hidle
    rw [← hops] at hbr
    exact ⟨⟨_, _, hops, hlocked, hreleased, hidle⟩, hbr⟩
  · intro hs
    simp [RunNodeAccelerated, hs]

/-- C15, for the example node with three iterations: one `Lock`, one `Unlock`, every
use of the shader in between. -/
theorem RunNodeAccelerated_lock_discipline_witness :
    (RunNodeAccelerated exampleWorker exampleNode).ops.count GLOp.Lock = 1 ∧
    (RunNodeAccelerated exampleWorker exampleNode).ops.count GLOp.Unlock = 1 ∧
    lockHeldAtUses (RunNodeAccelerated exampleWorker exampleNode).ops false = true :=
  ((RunNodeAccelerated_lock_discipline exampleWorker exampleNode).1 ⟨fun _ => -1⟩ rfl).2

end Olive
